import Mathlib

/-!
Shallow embedding of the expense-tracker repository (src/user.py, src/expense.py).

The persistent stores are CSV tables; we model them as lists of rows of
string fields.  Python floats are modelled by `ℚ` (the program only ever
compares amounts with `<= 0` and serialises them with two decimal places;
both are exact on the decimal numerals the store reads and writes).
Python exceptions are modelled by `Except Err`.
-/

namespace ExpenseTracker

/-- Model of the Python exceptions raised by the two store modules. -/
inductive Err where
  | valueError (msg : String)
  | keyError (msg : String)
  | nameError (msg : String)
deriving DecidableEq

/-! ### Decimal digits -/

/-- The decimal digit character for `n < 10` (used by `str()` / `f"{..:.2f}"`). -/
def digitChar (n : ℕ) : Char :=
  match n with
  | 0 => '0' | 1 => '1' | 2 => '2' | 3 => '3' | 4 => '4'
  | 5 => '5' | 6 => '6' | 7 => '7' | 8 => '8' | _ => '9'

/-- Numeric value of a digit character. -/
def charVal (c : Char) : ℕ := c.toNat - 48

/-- Value of a string of decimal digits (most significant first). -/
def digitsVal (l : List Char) : ℕ := l.foldl (fun a c => 10 * a + charVal c) 0

/-- Decimal representation of a natural number, as produced by Python `str()`. -/
def natToDigits (n : ℕ) : List Char :=
  if n < 10 then [digitChar n]
  else natToDigits (n / 10) ++ [digitChar (n % 10)]
decreasing_by exact Nat.div_lt_self (by omega) (by omega)

/-- Decimal representation as a `String` (Python `str(n)` for a nonnegative int). -/
def natStr (n : ℕ) : String := ⟨natToDigits n⟩

/-- Model of Python `int(s)` on the digit strings produced by the store itself. -/
def parseNatL (l : List Char) : Option ℕ :=
  if l ≠ [] ∧ l.all Char.isDigit = true then some (digitsVal l) else none

/-! ### Python `float(s)` on plain decimal numerals

`float()` accepts an optional sign, an integer part and an optional
fractional part (at least one digit overall).  Exponents / `inf` / `nan`
forms never arise in this program's data and are rejected like any other
non-numeral here. -/

/-- Value contributed by a fractional digit string. -/
def fracVal (l : List Char) : ℚ := (digitsVal l : ℚ) / 10 ^ l.length

/-- Unsigned decimal numeral: `digits`, `digits.digits`, `digits.` or `.digits`. -/
def parseUnsigned (l : List Char) : Option ℚ :=
  let ip := l.takeWhile Char.isDigit
  match l.dropWhile Char.isDigit with
  | [] => if ip = [] then none else some (digitsVal ip)
  | '.' :: fp =>
      if (ip ≠ [] ∨ fp ≠ []) ∧ fp.all Char.isDigit = true then
        some ((digitsVal ip : ℚ) + fracVal fp)
      else none
  | _ => none

/-- Model of Python `float(s)` (decimal numerals; anything else raises, i.e. `none`). -/
def parseAmount (l : List Char) : Option ℚ :=
  match l with
  | [] => none
  | c :: rest =>
    if c = '-' then (parseUnsigned rest).map (fun q => -q)
    else if c = '+' then parseUnsigned rest
    else parseUnsigned (c :: rest)

/-! ### Python `datetime.strptime(s, "%Y-%m-%d")`

The CPython parser matches a 4-digit year, a 1–2 digit month `1..12` and a
1–2 digit day `1..31`, then `datetime(y, m, d)` additionally requires
`y ≥ 1` and the day to exist in the month (proleptic Gregorian). -/

/-- Number of days in a month of the proleptic Gregorian calendar. -/
def monthLen (y m : ℕ) : ℕ :=
  if m = 2 then (if y % 4 = 0 ∧ (y % 100 ≠ 0 ∨ y % 400 = 0) then 29 else 28)
  else if m = 4 ∨ m = 6 ∨ m = 9 ∨ m = 11 then 30 else 31

/-- Split a character list into the groups separated by the literal dashes. -/
def splitDash : List Char → List (List Char)
  | [] => [[]]
  | '-' :: rest => [] :: splitDash rest
  | c :: rest =>
    match splitDash rest with
    | g :: gs => (c :: g) :: gs
    | [] => [[c]]

/-- Model of `datetime.strptime(s, "%Y-%m-%d")`: `some (y, m, d)` when the
string is accepted, `none` when a `ValueError` is raised. -/
def parseDate (l : List Char) : Option (ℕ × ℕ × ℕ) :=
  match splitDash l with
  | [ys, ms, ds] =>
    if ys.length = 4 ∧ ys.all Char.isDigit = true
        ∧ (ms.length = 1 ∨ ms.length = 2) ∧ ms.all Char.isDigit = true
        ∧ (ds.length = 1 ∨ ds.length = 2) ∧ ds.all Char.isDigit = true then
      let y := digitsVal ys
      let m := digitsVal ms
      let d := digitsVal ds
      if 1 ≤ y ∧ 1 ≤ m ∧ m ≤ 12 ∧ 1 ≤ d ∧ d ≤ monthLen y m then some (y, m, d)
      else none
    else none
  | _ => none

/-! ### Two-decimal serialisation (`f"{amount:.2f}"`)

Python formats the amount with two decimal places, rounding ties to even.
Over `ℚ` this is rounding `q * 100` to the nearest integer (half to even). -/

/-- Round half to even, the rounding used by `format(x, '.2f')`. -/
def rhe (q : ℚ) : ℤ :=
  let f := ⌊q⌋
  if q - f < 1 / 2 then f
  else if 1 / 2 < q - f then f + 1
  else if f % 2 = 0 then f else f + 1

/-- The two-decimal value that the store writes for an in-memory amount. -/
def round2 (q : ℚ) : ℚ := (rhe (q * 100) : ℚ) / 100

/-- Character list produced by `f"{q:.2f}"`. -/
def format2Chars (q : ℚ) : List Char :=
  let n := (rhe (q * 100)).natAbs
  (if q < 0 then ['-'] else [])
    ++ natToDigits (n / 100) ++ '.' :: [digitChar (n / 10 % 10), digitChar (n % 10)]

/-- String produced by `f"{q:.2f}"`. -/
def format2 (q : ℚ) : String := ⟨format2Chars q⟩

/-! ### Data model (src/expense.py)

`expenses.csv` rows have six string fields.  The in-memory `Expense`
object keeps `expense_id` and `user_id` as the strings read from the file
and converts `amount` with `float()`; `date`, `category`, `description`
stay strings. -/

/-- One row of `expenses.csv` (all fields are raw strings). -/
structure Row where
  expense_id : String
  user_id : String
  amount : String
  date : String
  category : String
  description : String
deriving DecidableEq

/-- In-memory `Expense` object (`Expense.__init__` applies `float` to `amount`). -/
structure Expense where
  expense_id : String
  user_id : String
  amount : ℚ
  date : String
  category : String
  description : String
deriving DecidableEq

/-- The fixed category enumeration `CATEGORIES` from src/expense.py. -/
def CATEGORIES : List String :=
  ["Food", "Transport", "Rent", "Utilities", "Shopping", "Other"]

/-- Constructing an `Expense` from a row: only `float(amount)` can fail;
this is the `try`/`except` body in `ExpenseManager._load_all`. -/
def parseExpense (r : Row) : Option Expense :=
  (parseAmount r.amount.data).map fun q =>
    ⟨r.expense_id, r.user_id, q, r.date, r.category, r.description⟩

/-- Serialisation `Expense.to_dict`: amount is written as `f"{amount:.2f}"`. -/
def to_dict (e : Expense) : Row :=
  ⟨e.expense_id, e.user_id, format2 e.amount, e.date, e.category, e.description⟩

/-- Model of `ExpenseManager._load_all`: rows whose construction raises are
silently skipped (`except Exception: continue`). -/
def load_all (rows : List Row) : List Expense := rows.filterMap parseExpense

/-- Model of `ExpenseManager._write_all`: the whole table is rewritten from
`to_dict` of each in-memory expense. -/
def write_all (l : List Expense) : List Row := l.map to_dict

/-- Composite-key predicate used by find/edit/delete:
`e.user_id == str(user_id) and e.expense_id == str(expense_id)`. -/
def matchKey (u k : String) (e : Expense) : Bool :=
  e.user_id == u && e.expense_id == k

/-! ### Sorting by date (`list_for_user`)

`list_for_user` sorts with Python's stable `list.sort`, keyed by the
parsed date; comparing `datetime` values compares `(y, m, d)`
lexicographically, which the numeric key below encodes faithfully
(for parsed dates, `m ≤ 12 < 100` and `d ≤ 31 < 100`). -/

/-- Numeric sort key of an expense's (parsed) date. -/
def dateKey (e : Expense) : ℕ :=
  match parseDate e.date.data with
  | some (y, m, d) => y * 10000 + m * 100 + d
  | none => 0

/-- The comparison `strptime(a.date) <= strptime(b.date)` used by the sort. -/
def dateLe (a b : Expense) : Prop := dateKey a ≤ dateKey b

instance : DecidableRel dateLe := fun _ _ => Nat.decLe _ _

instance : IsTotal Expense dateLe := ⟨fun _ _ => Nat.le_total _ _⟩

instance : IsTrans Expense dateLe := ⟨fun _ _ _ => Nat.le_trans⟩

/-! ### The record-store operations (class `ExpenseManager`) -/

/-- The comprehension `[e for e in all_exp if e.user_id == str(user_id)]`. -/
def userExpenses (rows : List Row) (uid : String) : List Expense :=
  (load_all rows).filter fun e => e.user_id == uid

/-- Model of `ExpenseManager.list_for_user`.  Python's `sort` raises a
`ValueError` (from `strptime` in the key function) when some date of the
user's records does not parse; otherwise it stable-sorts by date. -/
def list_for_user (rows : List Row) (uid : String) : Except Err (List Expense) :=
  let l := userExpenses rows uid
  if l.all (fun e => (parseDate e.date.data).isSome) then
    .ok (List.insertionSort dateLe l)
  else .error (.valueError "time data does not match format %Y-%m-%d")

/-- `int(e.expense_id)` over a list of expenses; `none` models the
uncaught `ValueError` when some id is not numeric. -/
def parseIds : List Expense → Option (List ℕ)
  | [] => some []
  | e :: l =>
    match parseNatL e.expense_id.data, parseIds l with
    | some n, some ns => some (n :: ns)
    | _, _ => none

/-- Model of `ExpenseManager._next_expense_id_for_user`:
`max(user_exp) + 1 if user_exp else 1` over the user's integer ids. -/
def next_expense_id_for_user (rows : List Row) (uid : String) : Except Err ℕ :=
  match parseIds (userExpenses rows uid) with
  | none => .error (.valueError "invalid literal for int")
  | some [] => .ok 1
  | some (n :: ns) => .ok ((n :: ns).foldl max 0 + 1)

/-- Model of `ExpenseManager.add_expense`: validates category, then date,
then amount; on success appends the new expense and rewrites the table. -/
def add_expense (rows : List Row) (uid : String) (amount : ℚ)
    (date category description : String) : Except Err (List Row × Expense) :=
  if category ∉ CATEGORIES then .error (.valueError "Invalid category")
  else if (parseDate date.data).isNone then
    .error (.valueError "time data does not match format %Y-%m-%d")
  else if amount ≤ 0 then .error (.valueError "Amount must be positive")
  else
    match next_expense_id_for_user rows uid with
    | .error err => .error err
    | .ok eid =>
      let exp : Expense := ⟨natStr eid, uid, amount, date, category, description⟩
      .ok (write_all (load_all rows ++ [exp]), exp)

/-- Model of `ExpenseManager.find_expense`: first loaded record matching the
composite key, else `None`.  Reads only; never writes. -/
def find_expense (rows : List Row) (u k : String) : Option Expense :=
  (load_all rows).find? (matchKey u k)

/-- The partial update dictionary accepted by `edit_expense` (`**kwargs`). -/
structure Update where
  amount : Option ℚ
  date : Option String
  category : Option String
  description : Option String

/-- Update step for a supplied amount (`float(kwargs['amount']) <= 0` check). -/
def updAmount (a? : Option ℚ) (e : Expense) : Except Err Expense :=
  match a? with
  | none => .ok e
  | some a =>
    if a ≤ 0 then .error (.valueError "Amount must be positive")
    else .ok { e with amount := a }

/-- Update step for a supplied date (`strptime` re-validation). -/
def updDate (d? : Option String) (e : Expense) : Except Err Expense :=
  match d? with
  | none => .ok e
  | some d =>
    if (parseDate d.data).isNone then
      .error (.valueError "time data does not match format %Y-%m-%d")
    else .ok { e with date := d }

/-- Update step for a supplied category (membership re-validation). -/
def updCategory (c? : Option String) (e : Expense) : Except Err Expense :=
  match c? with
  | none => .ok e
  | some c =>
    if c ∉ CATEGORIES then .error (.valueError "Invalid category")
    else .ok { e with category := c }

/-- Update step for a supplied description (no validation). -/
def updDescription (d? : Option String) (e : Expense) : Expense :=
  match d? with
  | none => e
  | some d => { e with description := d }

/-- Field updates applied to the matched record, in source order
(amount, date, category, description), each validated before assignment;
a raised `ValueError` propagates (`Except.bind` short-circuits on error). -/
def applyUpdate (upd : Update) (e : Expense) : Except Err Expense :=
  (updAmount upd.amount e).bind fun e1 =>
    (updDate upd.date e1).bind fun e2 =>
      (updCategory upd.category e2).bind fun e3 =>
        .ok (updDescription upd.description e3)

/-- The `for`/`break` loop of `edit_expense`: updates the first record
matching the key in place; `ok none` models `found == False`. -/
def editLoop (u k : String) (upd : Update) :
    List Expense → Except Err (Option (List Expense × Expense))
  | [] => .ok none
  | e :: rest =>
    if matchKey u k e then
      match applyUpdate upd e with
      | .error err => .error err
      | .ok e1 => .ok (some (e1 :: rest, e1))
    else
      match editLoop u k upd rest with
      | .error err => .error err
      | .ok none => .ok none
      | .ok (some (l, e1)) => .ok (some (e :: l, e1))

/-- Model of `ExpenseManager.edit_expense`: `KeyError` when no record
matches; otherwise rewrites the table with the updated record and returns it. -/
def edit_expense (rows : List Row) (u k : String) (upd : Update) :
    Except Err (List Row × Expense) :=
  match editLoop u k upd (load_all rows) with
  | .error err => .error err
  | .ok none => .error (.keyError "Expense not found")
  | .ok (some (l, e1)) => .ok (write_all l, e1)

/-- Model of `ExpenseManager.delete_expense`: removes every record matching
the key; writes only when something was removed, and returns whether it was. -/
def delete_expense (rows : List Row) (u k : String) : Bool × List Row :=
  let all := load_all rows
  let nl := all.filter fun e => !(matchKey u k e)
  if nl.length = all.length then (false, rows) else (true, write_all nl)

/-- Model of `ExpenseManager.export_user_expenses`: writes `list_for_user`'s
result to the destination with the same `to_dict` layout as the primary
store.  The returned rows are the contents of the written file. -/
def export_user_expenses (rows : List Row) (uid : String) :
    Except Err (List Row) :=
  match list_for_user rows uid with
  | .error err => .error err
  | .ok l => .ok (write_all l)

/-! ### The credential store (src/user.py) -/

/-- In-memory `User` record (`users.csv` row after `int(user_id)`). -/
structure User where
  user_id : ℕ
  username : String
  hashed_password : String
deriving DecidableEq

/-- Model of `UserManager.find_by_username`: first exact (case-sensitive)
username match. -/
def find_by_username (users : List User) (username : String) : Option User :=
  users.find? fun u => u.username == username

/-- Model of `UserManager._save`.  The write loop executes
`print('Users loaded:', len(um.users))` after the first `writerow`; the
module-level name `um` is only bound when user.py runs as a script, so the
first iteration raises `NameError` — saving a nonempty user list always
fails. -/
def save (users : List User) : Except Err Unit :=
  match users with
  | [] => .ok ()
  | _ :: _ => .error (.nameError "name um is not defined")

/-- Model of `UserManager.create_user`.  The salted key derivation
`_hash_password` draws a random salt, so it is passed in as an arbitrary
function of the password. -/
def create_user (users : List User) (username password : String)
    (hash : String → String) : Except Err (List User × User) :=
  if (find_by_username users username).isSome then
    .error (.valueError "Username already exists")
  else
    let next_id := (users.map User.user_id).foldl max 0 + 1
    let user : User := ⟨next_id, username, hash password⟩
    let users1 := users ++ [user]
    match save users1 with
    | .error err => .error err
    | .ok _ => .ok (users1, user)

/-! ### Auxiliary notions used by the specification statements -/

/-- Rewriting a table sends every in-memory amount through the two-decimal
serialisation; this is the induced change on an `Expense`. -/
def roundAmount (e : Expense) : Expense := { e with amount := round2 e.amount }

/-- A row is normalized when its amount field is exactly the two-decimal
serialisation of its parsed value — true of every row the store itself writes. -/
def normalizedRow (r : Row) : Bool :=
  match parseAmount r.amount.data with
  | some q => format2 q == r.amount
  | none => false

/-- A table every row of which is normalized (the store-written invariant). -/
def WellFormed (rows : List Row) : Prop := ∀ r ∈ rows, normalizedRow r = true

/-- A partial update whose supplied fields all pass `add_expense`'s rules. -/
def validUpd (upd : Update) : Prop :=
  (∀ a ∈ upd.amount, 0 < a) ∧ (∀ d ∈ upd.date, (parseDate d.data).isSome = true)
    ∧ (∀ c ∈ upd.category, c ∈ CATEGORIES)

/-- The record resulting from applying a valid partial update: supplied
fields take the new value, omitted fields keep their prior value. -/
def updatedExpense (upd : Update) (e : Expense) : Expense :=
  ⟨e.expense_id, e.user_id, upd.amount.getD e.amount, upd.date.getD e.date,
    upd.category.getD e.category, upd.description.getD e.description⟩

/-- Arguments of one `add_expense` call (after the caller's `float()`). -/
structure AddParams where
  amount : ℚ
  date : String
  category : String
  description : String

/-- The arguments pass `add_expense`'s validation. -/
def validParams (p : AddParams) : Prop :=
  0 < p.amount ∧ (parseDate p.date.data).isSome = true ∧ p.category ∈ CATEGORIES

/-- A sequence of `add_expense` calls for one user, threading the table. -/
def addAll (rows : List Row) (uid : String) : List AddParams → Except Err (List Row)
  | [] => .ok rows
  | p :: ps =>
    match add_expense rows uid p.amount p.date p.category p.description with
    | .error err => .error err
    | .ok (rows1, _) => addAll rows1 uid ps

/-- The user's expense ids as Python ints, as read by
`_next_expense_id_for_user` (`none` when some id fails `int()`). -/
def userIds (rows : List Row) (uid : String) : Option (List ℕ) :=
  parseIds (userExpenses rows uid)

/-! ## Lemmas about decimal digits and numerals -/

theorem charVal_digitChar : ∀ n < 10, charVal (digitChar n) = n := by decide

theorem digitChar_isDigit (n : ℕ) : (digitChar n).isDigit = true := by
  unfold digitChar
  split <;> decide

theorem natToDigits_ne_nil (n : ℕ) : natToDigits n ≠ [] := by
  rw [natToDigits]
  split
  · simp
  · simp

theorem natToDigits_all_digit (n : ℕ) : ∀ c ∈ natToDigits n, c.isDigit = true := by
  induction n using Nat.strong_induction_on with
  | _ n ih =>
    rw [natToDigits]
    split
    · intro c hc
      rw [List.mem_singleton] at hc
      subst hc
      exact digitChar_isDigit _
    · next h =>
      intro c hc
      rcases List.mem_append.mp hc with h1 | h1
      · exact ih (n / 10) (Nat.div_lt_self (by omega) (by omega)) c h1
      · rw [List.mem_singleton] at h1
        subst h1
        exact digitChar_isDigit _

theorem digitsVal_from (a : ℕ) (l : List Char) :
    l.foldl (fun a c => 10 * a + charVal c) a = a * 10 ^ l.length + digitsVal l := by
  induction l generalizing a with
  | nil => simp [digitsVal]
  | cons c l ih =>
    rw [List.foldl_cons]
    rw [ih (10 * a + charVal c)]
    have h2 : digitsVal (c :: l) = charVal c * 10 ^ l.length + digitsVal l := by
      rw [digitsVal, List.foldl_cons]
      have := ih (10 * 0 + charVal c)
      rw [this]
      ring_nf
    rw [h2, List.length_cons]
    ring

theorem digitsVal_append (l1 l2 : List Char) :
    digitsVal (l1 ++ l2) = digitsVal l1 * 10 ^ l2.length + digitsVal l2 := by
  rw [digitsVal, List.foldl_append]
  rw [digitsVal_from]
  rfl

theorem digitsVal_natToDigits (n : ℕ) : digitsVal (natToDigits n) = n := by
  induction n using Nat.strong_induction_on with
  | _ n ih =>
    rw [natToDigits]
    split
    · next h =>
      show digitsVal [digitChar n] = n
      rw [digitsVal, List.foldl_cons, List.foldl_nil]
      rw [charVal_digitChar n h]
      omega
    · next h =>
      rw [digitsVal_append]
      rw [ih (n / 10) (Nat.div_lt_self (by omega) (by omega))]
      have hlt : n % 10 < 10 := Nat.mod_lt _ (by omega)
      rw [show digitsVal [digitChar (n % 10)] = n % 10 by
        rw [digitsVal, List.foldl_cons, List.foldl_nil]
        rw [charVal_digitChar _ hlt]
        omega]
      simp only [List.length_cons, List.length_nil, pow_one]
      omega

theorem parseNatL_natToDigits (n : ℕ) : parseNatL (natToDigits n) = some n := by
  rw [parseNatL]
  rw [if_pos]
  · rw [digitsVal_natToDigits]
  · exact ⟨natToDigits_ne_nil n, List.all_eq_true.mpr (natToDigits_all_digit n)⟩

/-! ## Round-trip of the two-decimal serialisation -/

theorem takeWhile_digits_append (l1 l2 : List Char) (x : Char)
    (h1 : ∀ c ∈ l1, c.isDigit = true) (hx : x.isDigit = false) :
    (l1 ++ x :: l2).takeWhile Char.isDigit = l1
      ∧ (l1 ++ x :: l2).dropWhile Char.isDigit = x :: l2 := by
  induction l1 with
  | nil =>
    constructor
    · rw [List.nil_append, List.takeWhile_cons, hx]
      simp
    · rw [List.nil_append, List.dropWhile_cons, hx]
      simp
  | cons c l1 ih =>
    have hc : c.isDigit = true := h1 c (List.mem_cons_self c l1)
    have ihh := ih fun d hd => h1 d (List.mem_cons_of_mem c hd)
    constructor
    · rw [List.cons_append, List.takeWhile_cons, hc]
      simp only [if_true, ihh.1]
    · rw [List.cons_append, List.dropWhile_cons, hc]
      simp only [if_true, ihh.2]

theorem parseUnsigned_format (a b c : ℕ) (hb : b < 10) (hc : c < 10) :
    parseUnsigned (natToDigits a ++ '.' :: [digitChar b, digitChar c])
      = some ((a : ℚ) + ((10 * b + c : ℕ) : ℚ) / 100) := by
  have hsplit := takeWhile_digits_append (natToDigits a) [digitChar b, digitChar c] '.'
    (natToDigits_all_digit a) (by decide)
  rw [parseUnsigned]
  simp only [hsplit.1, hsplit.2]
  rw [if_pos]
  · have hfrac : fracVal [digitChar b, digitChar c] = ((10 * b + c : ℕ) : ℚ) / 100 := by
      rw [fracVal, digitsVal, List.foldl_cons, List.foldl_cons, List.foldl_nil]
      rw [charVal_digitChar b hb, charVal_digitChar c hc]
      norm_num
    rw [digitsVal_natToDigits, hfrac]
  · constructor
    · exact Or.inl (natToDigits_ne_nil a)
    · rw [List.all_eq_true]
      intro d hd
      rcases List.mem_cons.mp hd with h | h
      · subst h; exact digitChar_isDigit b
      · rw [List.mem_singleton] at h
        subst h; exact digitChar_isDigit c

theorem rhe_intCast (m : ℤ) : rhe (m : ℚ) = m := by
  rw [rhe]
  simp only [Int.floor_intCast, sub_self]
  rw [if_pos]
  norm_num

theorem rhe_nonneg {q : ℚ} (h : 0 ≤ q) : 0 ≤ rhe q := by
  have h0 : (0 : ℤ) ≤ ⌊q⌋ := Int.floor_nonneg.mpr h
  rw [rhe]
  split_ifs <;> omega

theorem rhe_nonpos {q : ℚ} (h : q < 0) : rhe q ≤ 0 := by
  have h0 : ⌊q⌋ < 0 := by
    by_contra hcon
    push_neg at hcon
    exact absurd (Int.floor_nonneg.mp hcon) (not_le.mpr h)
  rw [rhe]
  split_ifs <;> omega

theorem natAbs_parts (n : ℕ) :
    ((n / 100 : ℕ) : ℚ) + ((10 * (n / 10 % 10) + n % 10 : ℕ) : ℚ) / 100 = (n : ℚ) / 100 := by
  have h : 10 * (n / 10 % 10) + n % 10 = n % 100 := by omega
  rw [h]
  have h2 : (n : ℚ) = ((100 * (n / 100) + n % 100 : ℕ) : ℚ) := by
    congr 1
    omega
  rw [h2]
  push_cast
  ring

theorem parseAmount_format2 (q : ℚ) :
    parseAmount (format2 q).data = some (round2 q) := by
  have hdata : (format2 q).data = format2Chars q := rfl
  rw [hdata, format2Chars]
  have hb : (rhe (q * 100)).natAbs / 10 % 10 < 10 := Nat.mod_lt _ (by omega)
  have hcc : (rhe (q * 100)).natAbs % 10 < 10 := Nat.mod_lt _ (by omega)
  have hun := parseUnsigned_format ((rhe (q * 100)).natAbs / 100)
    ((rhe (q * 100)).natAbs / 10 % 10) ((rhe (q * 100)).natAbs % 10) hb hcc
  have hval : (((rhe (q * 100)).natAbs / 100 : ℕ) : ℚ)
      + ((10 * ((rhe (q * 100)).natAbs / 10 % 10) + (rhe (q * 100)).natAbs % 10 : ℕ) : ℚ) / 100
      = ((rhe (q * 100)).natAbs : ℚ) / 100 := natAbs_parts _
  by_cases hq : q < 0
  · rw [if_pos hq]
    have hle : rhe (q * 100) ≤ 0 :=
      rhe_nonpos (mul_neg_of_neg_of_pos hq (by norm_num))
    show parseAmount ('-' :: (natToDigits _ ++ '.' :: [digitChar _, digitChar _]))
      = some (round2 q)
    rw [parseAmount, if_pos rfl, hun]
    rw [Option.map_some']
    congr 1
    rw [hval, round2]
    rw [Int.cast_natAbs, abs_of_nonpos (by exact_mod_cast hle)]
    push_cast
    ring
  · rw [if_neg hq]
    have hge : 0 ≤ rhe (q * 100) :=
      rhe_nonneg (mul_nonneg (not_lt.mp hq) (by norm_num))
    obtain ⟨c0, l0, heq⟩ :=
      List.exists_cons_of_ne_nil (natToDigits_ne_nil ((rhe (q * 100)).natAbs / 100))
    have hc0 : c0.isDigit = true := by
      apply natToDigits_all_digit ((rhe (q * 100)).natAbs / 100)
      rw [heq]
      exact List.mem_cons_self _ _
    have hminus : ¬(c0 = '-') := by
      intro hcon
      subst hcon
      exact absurd hc0 (by decide)
    have hplus : ¬(c0 = '+') := by
      intro hcon
      subst hcon
      exact absurd hc0 (by decide)
    rw [List.nil_append, heq, List.cons_append, parseAmount, if_neg hminus, if_neg hplus]
    rw [← List.cons_append, ← heq, hun]
    congr 1
    rw [hval, round2]
    rw [Int.cast_natAbs, abs_of_nonneg (by exact_mod_cast hge)]

theorem round2_idem (q : ℚ) : round2 (round2 q) = round2 q := by
  rw [round2, round2]
  have h : (rhe (q * 100) : ℚ) / 100 * 100 = (rhe (q * 100) : ℚ) := by
    field_simp
  rw [h, rhe_intCast]

theorem parseExpense_to_dict (e : Expense) :
    parseExpense (to_dict e) = some (roundAmount e) := by
  rw [parseExpense, to_dict]
  have h : parseAmount (format2 e.amount).data = some (round2 e.amount) :=
    parseAmount_format2 e.amount
  simp only [h, Option.map_some']
  rfl

theorem load_all_write_all (l : List Expense) :
    load_all (write_all l) = l.map roundAmount := by
  rw [load_all, write_all, List.filterMap_map]
  induction l with
  | nil => rfl
  | cons e l ih =>
    rw [List.map_cons, List.filterMap_cons]
    simp only [Function.comp_apply, parseExpense_to_dict]
    rw [ih]

theorem roundAmount_eq_self {e : Expense} (h : round2 e.amount = e.amount) :
    roundAmount e = e := by
  cases e
  simp only [roundAmount] at h ⊢
  simp_all

theorem wellFormed_round2 {rows : List Row} (hw : WellFormed rows) :
    ∀ e ∈ load_all rows, round2 e.amount = e.amount := by
  intro e he
  rw [load_all, List.mem_filterMap] at he
  obtain ⟨r, hr, hpe⟩ := he
  have hn := hw r hr
  rw [normalizedRow] at hn
  rcases hq : parseAmount r.amount.data with _ | q
  · rw [hq] at hn
    exact absurd hn (by simp)
  · rw [hq] at hn
    have hfmt : format2 q = r.amount := by
      exact eq_of_beq hn
    have hea : e.amount = q := by
      rw [parseExpense, hq, Option.map_some'] at hpe
      cases hpe
      rfl
    have hround : parseAmount r.amount.data = some (round2 q) := by
      rw [← hfmt]
      exact parseAmount_format2 q
    rw [hq] at hround
    have : round2 q = q := by
      injection hround with h
      exact h.symm
    rw [hea, this]

theorem load_all_write_all_of_wellFormed {rows : List Row} (hw : WellFormed rows) :
    load_all (write_all (load_all rows)) = load_all rows := by
  rw [load_all_write_all]
  rw [List.map_congr_left fun e he => roundAmount_eq_self (wellFormed_round2 hw e he)]
  exact List.map_id _

/-! ## Stability of the date sort -/

theorem filter_key_orderedInsert (m : ℕ) (a : Expense) (l : List Expense) :
    (List.orderedInsert dateLe a l).filter (fun e => dateKey e == m)
      = if dateKey a = m then a :: l.filter (fun e => dateKey e == m)
        else l.filter (fun e => dateKey e == m) := by
  induction l with
  | nil =>
    rw [List.orderedInsert]
    by_cases h : dateKey a = m
    · rw [if_pos h, List.filter_cons]
      simp [h]
    · rw [if_neg h, List.filter_cons]
      simp [h]
  | cons b l ih =>
    rw [List.orderedInsert]
    by_cases hr : dateLe a b
    · rw [if_pos hr]
      by_cases h : dateKey a = m
      · rw [if_pos h, List.filter_cons, List.filter_cons]
        simp [h]
      · rw [if_neg h, List.filter_cons, List.filter_cons]
        simp [h]
    · rw [if_neg hr]
      have hlt : dateKey b < dateKey a := by
        rw [dateLe] at hr
        omega
      by_cases hm : dateKey a = m
      · have hbm : (dateKey b == m) = false := by
          simp only [beq_eq_false_iff_ne]
          omega
        rw [if_pos hm, List.filter_cons, List.filter_cons, hbm]
        simp only [Bool.false_eq_true, if_false]
        rw [ih, if_pos hm]
      · rw [if_neg hm, List.filter_cons, List.filter_cons, ih, if_neg hm]

theorem filter_key_insertionSort (m : ℕ) (l : List Expense) :
    (List.insertionSort dateLe l).filter (fun e => dateKey e == m)
      = l.filter (fun e => dateKey e == m) := by
  induction l with
  | nil => rfl
  | cons a l ih =>
    rw [List.insertionSort, filter_key_orderedInsert, List.filter_cons]
    by_cases hm : dateKey a = m
    · have : (dateKey a == m) = true := by simp [hm]
      rw [if_pos hm, ih, this]
      simp
    · have : (dateKey a == m) = false := by simp [hm]
      rw [if_neg hm, ih, this]
      simp

/-! ## Lemmas about `find?` along rewrites and deletions -/

theorem find?_filter_of_imp (p q : Expense → Bool) (l : List Expense)
    (h : ∀ e, p e = true → q e = true) :
    (l.filter q).find? p = l.find? p := by
  induction l with
  | nil => rfl
  | cons a l ih =>
    rw [List.filter_cons]
    by_cases hq : q a = true
    · rw [if_pos hq]
      rcases hp : p a with _ | _
      · rw [List.find?_cons_of_neg _ (by simp [hp]), List.find?_cons_of_neg _ (by simp [hp]), ih]
      · rw [List.find?_cons_of_pos _ hp, List.find?_cons_of_pos _ hp]
    · rw [if_neg hq]
      have hp : p a = false := by
        rcases hpa : p a with _ | _
        · rfl
        · exact absurd (h a hpa) hq
      rw [List.find?_cons_of_neg _ (by simp [hp]), ih]

theorem matchKey_roundAmount (u k : String) (e : Expense) :
    matchKey u k (roundAmount e) = matchKey u k e := rfl

theorem find?_map_roundAmount (u k : String) (l : List Expense) :
    (l.map roundAmount).find? (matchKey u k) = (l.find? (matchKey u k)).map roundAmount := by
  induction l with
  | nil => rfl
  | cons a l ih =>
    rw [List.map_cons]
    rcases hp : matchKey u k a with _ | _
    · rw [List.find?_cons_of_neg _ (by simp [matchKey_roundAmount, hp]),
        List.find?_cons_of_neg _ (by simp [hp]), ih]
    · rw [List.find?_cons_of_pos _ (by simp [matchKey_roundAmount, hp]),
        List.find?_cons_of_pos _ hp, Option.map_some']

theorem find?_filter_not_self (p : Expense → Bool) (l : List Expense) :
    (l.filter fun e => !(p e)).find? p = none := by
  rw [List.find?_eq_none]
  intro e he
  rw [List.mem_filter] at he
  rcases hp : p e with _ | _
  · simp
  · rw [hp] at he
    exact absurd he.2 (by simp)

/-! ## Claim C4 -/

/-- C4: for every user, `list_for_user` returns exactly the expenses owned by
that user (a permutation of the user filter of the table), sorted ascending
by date with ties kept in file order (the filter at each date key is
unchanged), and returns an empty sequence rather than an error when the user
has no records.  The operation is a pure function of the table and performs
no write (its result carries no table), so it never mutates storage.  The
hypothesis — every date of the user's records parses — is the table
invariant maintained by `add_expense`/`edit_expense`, without which the
source raises from the sort key. -/
theorem C4_list_for_user (rows : List Row) (uid : String)
    (hd : ∀ e ∈ userExpenses rows uid, (parseDate e.date.data).isSome = true) :
    ∃ l, list_for_user rows uid = .ok l
      ∧ List.Perm l (userExpenses rows uid)
      ∧ List.Sorted dateLe l
      ∧ (∀ m : ℕ, l.filter (fun e => dateKey e == m)
            = (userExpenses rows uid).filter (fun e => dateKey e == m))
      ∧ (userExpenses rows uid = [] → l = []) := by
  refine ⟨List.insertionSort dateLe (userExpenses rows uid), ?_, ?_, ?_, ?_, ?_⟩
  · rw [list_for_user]
    rw [if_pos (List.all_eq_true.mpr hd)]
  · exact List.perm_insertionSort dateLe _
  · exact List.sorted_insertionSort dateLe _
  · intro m
    exact filter_key_insertionSort m _
  · intro h
    rw [h]
    rfl

/-- Witness for C4 at a concrete three-row table (two rows of user 7 with a
date tie, one row of another user). -/
theorem C4_witness :
    (∀ e ∈ userExpenses
        [⟨"1", "7", "42.50", "2024-03-05", "Food", "lunch"⟩,
         ⟨"2", "7", "10.00", "2024-03-05", "Transport", "bus"⟩,
         ⟨"1", "8", "5.00", "2024-01-01", "Other", "misc"⟩] "7",
      (parseDate e.date.data).isSome = true)
    ∧ ∃ l, list_for_user
        [⟨"1", "7", "42.50", "2024-03-05", "Food", "lunch"⟩,
         ⟨"2", "7", "10.00", "2024-03-05", "Transport", "bus"⟩,
         ⟨"1", "8", "5.00", "2024-01-01", "Other", "misc"⟩] "7" = .ok l
      ∧ List.Perm l (userExpenses
        [⟨"1", "7", "42.50", "2024-03-05", "Food", "lunch"⟩,
         ⟨"2", "7", "10.00", "2024-03-05", "Transport", "bus"⟩,
         ⟨"1", "8", "5.00", "2024-01-01", "Other", "misc"⟩] "7")
      ∧ List.Sorted dateLe l
      ∧ (∀ m : ℕ, l.filter (fun e => dateKey e == m)
            = (userExpenses
        [⟨"1", "7", "42.50", "2024-03-05", "Food", "lunch"⟩,
         ⟨"2", "7", "10.00", "2024-03-05", "Transport", "bus"⟩,
         ⟨"1", "8", "5.00", "2024-01-01", "Other", "misc"⟩] "7").filter
            (fun e => dateKey e == m))
      ∧ (userExpenses
        [⟨"1", "7", "42.50", "2024-03-05", "Food", "lunch"⟩,
         ⟨"2", "7", "10.00", "2024-03-05", "Transport", "bus"⟩,
         ⟨"1", "8", "5.00", "2024-01-01", "Other", "misc"⟩] "7" = [] → l = []) :=
  ⟨by decide, C4_list_for_user _ "7" (by decide)⟩

/-! ## Claim C2 -/

/-- C2: `add_expense` with a nonpositive amount, or a category outside the
fixed enumeration, or a date rejected by the `%Y-%m-%d` parse, fails with a
`ValueError` (the ValidationError of the spec).  The operation returns no
table on error — the stored table the caller holds is unchanged and no new
record is persisted (`_write_all` is only reached after all three checks). -/
theorem C2_add_rejects_invalid (rows : List Row) (uid : String) (amount : ℚ)
    (date category description : String)
    (h : amount ≤ 0 ∨ (parseDate date.data).isNone = true ∨ category ∉ CATEGORIES) :
    ∃ msg, add_expense rows uid amount date category description
      = .error (.valueError msg) := by
  rw [add_expense]
  by_cases hc : category ∈ CATEGORIES
  · rw [if_neg (not_not_intro hc)]
    by_cases hdt : (parseDate date.data).isNone = true
    · rw [if_pos hdt]
      exact ⟨_, rfl⟩
    · rw [if_neg hdt]
      have ha : amount ≤ 0 := by
        rcases h with h | h | h
        · exact h
        · exact absurd h hdt
        · exact absurd hc h
      rw [if_pos ha]
      exact ⟨_, rfl⟩
  · rw [if_pos hc]
    exact ⟨_, rfl⟩

/-- Witness for C2: adding an expense of amount 0 on a concrete table fails. -/
theorem C2_witness :
    ((0 : ℚ) ≤ 0 ∨ (parseDate "2024-01-01".data).isNone = true ∨ "Food" ∉ CATEGORIES)
    ∧ ∃ msg, add_expense [⟨"1", "7", "42.50", "2024-03-05", "Food", "lunch"⟩]
        "7" 0 "2024-01-01" "Food" "zero" = .error (.valueError msg) :=
  ⟨by decide, C2_add_rejects_invalid _ "7" 0 "2024-01-01" "Food" "zero" (by decide)⟩

/-! ## Claim C8 -/

/-- C8: for every store state, registering a username that already exists as
a case-sensitive exact match fails with the duplicate-username error,
regardless of the password supplied (and of the key-derivation outcome). -/
theorem C8_register_duplicate (users : List User) (username : String)
    (h : (find_by_username users username).isSome = true) :
    ∀ (password : String) (hash : String → String),
      create_user users username password hash
        = .error (.valueError "Username already exists") := by
  intro password hash
  rw [create_user, if_pos h]

/-- Witness for C8: re-registering "alice" fails whatever the password. -/
theorem C8_witness :
    (find_by_username [⟨1, "alice", "aa$bb"⟩] "alice").isSome = true
    ∧ create_user [⟨1, "alice", "aa$bb"⟩] "alice" "OtherPw1" (fun _ => "cc$dd")
        = .error (.valueError "Username already exists") :=
  ⟨by decide, C8_register_duplicate _ "alice" (by decide) "OtherPw1" (fun _ => "cc$dd")⟩

/-! ## Claim C1 -/

/-- C1 (documents the code bug): `create_user` with a fresh username never
returns the created user: after appending the new user, `_save` iterates
over the nonempty user list and its stray debug line
`print('Users loaded:', len(um.users))` raises `NameError` (`um` is bound
only when user.py runs as a script).  Hence no `Register` ever succeeds and
the spec's Register-then-Authenticate round trip is unrealisable. -/
theorem C1_register_always_crashes (users : List User) (username password : String)
    (hash : String → String)
    (h : (find_by_username users username).isSome = false) :
    create_user users username password hash
      = .error (.nameError "name um is not defined") := by
  rw [create_user, if_neg (by rw [h]; exact Bool.false_ne_true)]
  cases users <;> rfl

/-- Witness for C1: the spec's own scenario `Register("alice", "Secret123")`
on an empty store crashes instead of succeeding. -/
theorem C1_witness :
    (find_by_username [] "alice").isSome = false
    ∧ create_user [] "alice" "Secret123" (fun _ => "aa$bb")
        = .error (.nameError "name um is not defined") :=
  ⟨by decide, C1_register_always_crashes [] "alice" "Secret123" (fun _ => "aa$bb") (by decide)⟩

/-! ## Claim C6 -/

/-- C6: `delete_expense` returns `true` exactly when a removal occurred and
`false` (a value, not an error) when nothing matched; afterwards
`find_expense` for the same user and id returns no match, and for any other
user the result of `find_expense` with that id is unchanged (on a
well-formed, store-written table). -/
theorem C6_delete_frame (rows : List Row) (u k : String) :
    ((delete_expense rows u k).1 = true
        ↔ ∃ e ∈ load_all rows, matchKey u k e = true)
    ∧ find_expense (delete_expense rows u k).2 u k = none
    ∧ (WellFormed rows → ∀ u2, u2 ≠ u →
        find_expense (delete_expense rows u k).2 u2 k = find_expense rows u2 k) := by
  have hL : delete_expense rows u k =
      if ((load_all rows).filter fun e => !(matchKey u k e)).length
          = (load_all rows).length
      then (false, rows)
      else (true, write_all ((load_all rows).filter fun e => !(matchKey u k e))) := rfl
  by_cases hc : ((load_all rows).filter fun e => !(matchKey u k e)).length
      = (load_all rows).length
  · have heq : (load_all rows).filter (fun e => !(matchKey u k e)) = load_all rows :=
      (List.filter_sublist _).eq_of_length hc
    have hnone : ∀ e ∈ load_all rows, matchKey u k e = false := by
      intro e he
      have h1 : (!(matchKey u k e)) = true := List.filter_eq_self.mp heq e he
      simpa using h1
    rw [hL, if_pos hc]
    refine ⟨?_, ?_, ?_⟩
    · constructor
      · intro hft
        exact absurd hft Bool.false_ne_true
      · rintro ⟨e, he, hm⟩
        rw [hnone e he] at hm
        exact absurd hm (by decide)
    · show find_expense rows u k = none
      rw [find_expense, List.find?_eq_none]
      intro e he
      simp [hnone e he]
    · intro _ u2 _
      rfl
  · obtain ⟨e0, he0, hm0⟩ : ∃ e ∈ load_all rows, matchKey u k e = true := by
      by_contra hcon
      push_neg at hcon
      apply hc
      have hall : (load_all rows).filter (fun e => !(matchKey u k e)) = load_all rows := by
        apply List.filter_eq_self.mpr
        intro a ha
        have h2 := hcon a ha
        simp only [Bool.not_eq_true] at h2 ⊢
        simp [h2]
      rw [hall]
    rw [hL, if_neg hc]
    refine ⟨?_, ?_, ?_⟩
    · exact ⟨fun _ => ⟨e0, he0, hm0⟩, fun _ => rfl⟩
    · show find_expense
          (write_all ((load_all rows).filter fun e => !(matchKey u k e))) u k = none
      rw [find_expense, load_all_write_all, find?_map_roundAmount, find?_filter_not_self]
      rfl
    · intro hw u2 hne
      show find_expense
          (write_all ((load_all rows).filter fun e => !(matchKey u k e))) u2 k
        = find_expense rows u2 k
      rw [find_expense, load_all_write_all, find?_map_roundAmount]
      have himp : ∀ x, matchKey u2 k x = true → (!(matchKey u k x)) = true := by
        intro x hx
        rw [matchKey, Bool.and_eq_true] at hx
        have hxu : x.user_id = u2 := eq_of_beq hx.1
        have hfu : (x.user_id == u) = false := by
          rw [hxu]
          exact beq_eq_false_iff_ne.mpr hne
        simp [matchKey, hfu]
      rw [find?_filter_of_imp _ _ _ himp, find_expense]
      rcases hf : (load_all rows).find? (matchKey u2 k) with _ | e
      · rfl
      · rw [Option.map_some']
        have hmem : e ∈ load_all rows := List.mem_of_find?_eq_some hf
        rw [roundAmount_eq_self (wellFormed_round2 hw e hmem)]

/-- Witness for C6 at a concrete two-user table: deleting (7, 1) removes
user 7's record and leaves user 8's record with the same id observable. -/
theorem C6_witness :
    (((delete_expense
        [⟨"1", "7", "42.50", "2024-03-05", "Food", "lunch"⟩,
         ⟨"1", "8", "5.00", "2024-01-01", "Other", "misc"⟩] "7" "1").1 = true
      ↔ ∃ e ∈ load_all
        [⟨"1", "7", "42.50", "2024-03-05", "Food", "lunch"⟩,
         ⟨"1", "8", "5.00", "2024-01-01", "Other", "misc"⟩], matchKey "7" "1" e = true)
    ∧ find_expense (delete_expense
        [⟨"1", "7", "42.50", "2024-03-05", "Food", "lunch"⟩,
         ⟨"1", "8", "5.00", "2024-01-01", "Other", "misc"⟩] "7" "1").2 "7" "1" = none
    ∧ (WellFormed
        [⟨"1", "7", "42.50", "2024-03-05", "Food", "lunch"⟩,
         ⟨"1", "8", "5.00", "2024-01-01", "Other", "misc"⟩] → ∀ u2, u2 ≠ "7" →
        find_expense (delete_expense
          [⟨"1", "7", "42.50", "2024-03-05", "Food", "lunch"⟩,
           ⟨"1", "8", "5.00", "2024-01-01", "Other", "misc"⟩] "7" "1").2 u2 "1"
          = find_expense
          [⟨"1", "7", "42.50", "2024-03-05", "Food", "lunch"⟩,
           ⟨"1", "8", "5.00", "2024-01-01", "Other", "misc"⟩] u2 "1")) :=
  C6_delete_frame
    [⟨"1", "7", "42.50", "2024-03-05", "Food", "lunch"⟩,
     ⟨"1", "8", "5.00", "2024-01-01", "Other", "misc"⟩] "7" "1"

/-! ## Lemmas for `edit_expense` -/

theorem updAmount_cases (a? : Option ℚ) (e : Expense) :
    (∃ e1, updAmount a? e = .ok e1)
      ∨ (∃ msg, updAmount a? e = .error (.valueError msg)) := by
  rcases a? with _ | a
  · exact Or.inl ⟨e, rfl⟩
  · rw [updAmount]
    by_cases h : a ≤ 0
    · rw [if_pos h]
      exact Or.inr ⟨_, rfl⟩
    · rw [if_neg h]
      exact Or.inl ⟨_, rfl⟩

theorem updDate_cases (d? : Option String) (e : Expense) :
    (∃ e1, updDate d? e = .ok e1)
      ∨ (∃ msg, updDate d? e = .error (.valueError msg)) := by
  rcases d? with _ | d
  · exact Or.inl ⟨e, rfl⟩
  · rw [updDate]
    by_cases h : (parseDate d.data).isNone = true
    · rw [if_pos h]
      exact Or.inr ⟨_, rfl⟩
    · rw [if_neg h]
      exact Or.inl ⟨_, rfl⟩

theorem updCategory_cases (c? : Option String) (e : Expense) :
    (∃ e1, updCategory c? e = .ok e1)
      ∨ (∃ msg, updCategory c? e = .error (.valueError msg)) := by
  rcases c? with _ | c
  · exact Or.inl ⟨e, rfl⟩
  · rw [updCategory]
    by_cases h : c ∈ CATEGORIES
    · rw [if_neg (not_not_intro h)]
      exact Or.inl ⟨_, rfl⟩
    · rw [if_pos h]
      exact Or.inr ⟨_, rfl⟩

theorem except_bind_ok {α β : Type} (a : α) (f : α → Except Err β) :
    (Except.ok a).bind f = f a := rfl

theorem updAmount_valid (a? : Option ℚ) (e : Expense) (h : ∀ a ∈ a?, 0 < a) :
    updAmount a? e = .ok { e with amount := a?.getD e.amount } := by
  rcases a? with _ | a
  · rfl
  · rw [updAmount, if_neg (not_le.mpr (h a rfl))]
    rfl

theorem updDate_valid (d? : Option String) (e : Expense)
    (h : ∀ d ∈ d?, (parseDate d.data).isSome = true) :
    updDate d? e = .ok { e with date := d?.getD e.date } := by
  rcases d? with _ | d
  · rfl
  · have hs := h d rfl
    rcases hpd : parseDate d.data with _ | v
    · rw [hpd] at hs
      exact absurd hs (by decide)
    · rw [updDate, hpd]
      rw [if_neg (by simp)]
      rfl

theorem updCategory_valid (c? : Option String) (e : Expense)
    (h : ∀ c ∈ c?, c ∈ CATEGORIES) :
    updCategory c? e = .ok { e with category := c?.getD e.category } := by
  rcases c? with _ | c
  · rfl
  · rw [updCategory, if_neg (not_not_intro (h c rfl))]
    rfl

theorem updDescription_getD (s? : Option String) (e : Expense) :
    updDescription s? e = { e with description := s?.getD e.description } := by
  rcases s? with _ | s <;> rfl

theorem applyUpdate_valid {upd : Update} (e : Expense) (hv : validUpd upd) :
    applyUpdate upd e = .ok (updatedExpense upd e) := by
  obtain ⟨ha, hd, hc⟩ := hv
  rw [applyUpdate, updAmount_valid _ _ ha, except_bind_ok, updDate_valid _ _ hd,
    except_bind_ok, updCategory_valid _ _ hc, except_bind_ok, updDescription_getD]
  rfl

theorem applyUpdate_error_shape {upd : Update} {e : Expense} {err : Err}
    (h : applyUpdate upd e = .error err) : ∃ msg, err = .valueError msg := by
  rw [applyUpdate] at h
  rcases updAmount_cases upd.amount e with ⟨e1, h1⟩ | ⟨msg, h1⟩
  · rw [h1, except_bind_ok] at h
    rcases updDate_cases upd.date e1 with ⟨e2, h2⟩ | ⟨msg, h2⟩
    · rw [h2, except_bind_ok] at h
      rcases updCategory_cases upd.category e2 with ⟨e3, h3⟩ | ⟨msg, h3⟩
      · rw [h3, except_bind_ok] at h
        cases h
      · rw [h3] at h
        cases h
        exact ⟨msg, rfl⟩
    · rw [h2] at h
      cases h
      exact ⟨msg, rfl⟩
  · rw [h1] at h
    cases h
    exact ⟨msg, rfl⟩

theorem applyUpdate_invalid {upd : Update} (e : Expense)
    (h : (∃ a ∈ upd.amount, a ≤ 0)
      ∨ (∃ d ∈ upd.date, (parseDate d.data).isNone = true)
      ∨ (∃ c ∈ upd.category, c ∉ CATEGORIES)) :
    ∃ msg, applyUpdate upd e = .error (.valueError msg) := by
  rw [applyUpdate]
  rcases h with ⟨a, hmem, hle⟩ | h2 | h3
  · have : upd.amount = some a := hmem
    rw [this, updAmount, if_pos hle]
    exact ⟨_, rfl⟩
  · rcases updAmount_cases upd.amount e with ⟨e1, h1⟩ | ⟨msg, h1⟩
    · obtain ⟨d, hmem, hbad⟩ := h2
      have : upd.date = some d := hmem
      rw [h1, except_bind_ok, this, updDate, if_pos hbad]
      exact ⟨_, rfl⟩
    · rw [h1]
      exact ⟨_, rfl⟩
  · rcases updAmount_cases upd.amount e with ⟨e1, h1⟩ | ⟨msg, h1⟩
    · rcases updDate_cases upd.date e1 with ⟨e2, h2⟩ | ⟨msg, h2⟩
      · obtain ⟨c, hmem, hbad⟩ := h3
        have : upd.category = some c := hmem
        rw [h1, except_bind_ok, h2, except_bind_ok, this, updCategory, if_pos hbad]
        exact ⟨_, rfl⟩
      · rw [h1, except_bind_ok, h2]
        exact ⟨_, rfl⟩
    · rw [h1]
      exact ⟨_, rfl⟩

theorem editLoop_of_find?_none (u k : String) (upd : Update) (l : List Expense)
    (h : l.find? (matchKey u k) = none) : editLoop u k upd l = .ok none := by
  induction l with
  | nil => rfl
  | cons a l ih =>
    rcases hp : matchKey u k a with _ | _
    · rw [List.find?_cons_of_neg _ (by simp [hp])] at h
      rw [editLoop, if_neg (by simp [hp]), ih h]
    · rw [List.find?_cons_of_pos _ hp] at h
      cases h

theorem editLoop_of_find?_some (u k : String) (upd : Update) (l : List Expense)
    (e : Expense) (h : l.find? (matchKey u k) = some e) :
    editLoop u k upd l =
      match applyUpdate upd e with
      | .error err => .error err
      | .ok e1 => .ok (some (l.takeWhile (fun x => !(matchKey u k x))
          ++ e1 :: (l.dropWhile fun x => !(matchKey u k x)).tail, e1)) := by
  induction l with
  | nil => simp at h
  | cons a l ih =>
    rcases hp : matchKey u k a with _ | _
    · rw [List.find?_cons_of_neg _ (by simp [hp])] at h
      rw [editLoop, if_neg (by simp [hp]), ih h]
      rcases happ : applyUpdate upd e with err | e1
      · rfl
      · rw [List.takeWhile_cons, List.dropWhile_cons]
        simp [hp]
    · rw [List.find?_cons_of_pos _ hp] at h
      injection h with he
      subst he
      rw [editLoop, if_pos (by rw [hp])]
      rcases happ : applyUpdate upd a with err | e1
      · rfl
      · rw [List.takeWhile_cons, List.dropWhile_cons]
        simp [hp]

theorem find?_decomp (p : Expense → Bool) (l : List Expense) {e : Expense}
    (h : l.find? p = some e) :
    l.takeWhile (fun x => !(p x)) ++ e :: (l.dropWhile fun x => !(p x)).tail = l := by
  induction l with
  | nil => simp at h
  | cons a l ih =>
    rcases hp : p a with _ | _
    · rw [List.find?_cons_of_neg _ (by simp [hp])] at h
      rw [List.takeWhile_cons, List.dropWhile_cons]
      simp [hp, ih h]
    · rw [List.find?_cons_of_pos _ hp] at h
      injection h with he
      subst he
      rw [List.takeWhile_cons, List.dropWhile_cons]
      simp [hp]

/-! ## Claim C5 -/

/-- C5: `edit_expense` fails with `KeyError` ("NotFound") when no record
matches the composite key; on a match with a valid partial update it applies
exactly the supplied fields (re-validated with `add_expense`'s rules) and
leaves every omitted field at its prior value (`updatedExpense` takes the
supplied value or the found record's), persisting the full table — the new
table is the old loaded list with only the matched record replaced, as the
second equation shows; and a supplied field failing its re-validation makes
the whole edit fail with a `ValueError`. -/
theorem C5_edit_partial_update (rows : List Row) (u k : String) (upd : Update) :
    (find_expense rows u k = none →
      edit_expense rows u k upd = .error (.keyError "Expense not found"))
    ∧ (∀ e, find_expense rows u k = some e → validUpd upd →
        edit_expense rows u k upd
          = .ok (write_all ((load_all rows).takeWhile (fun x => !(matchKey u k x))
              ++ updatedExpense upd e
                :: ((load_all rows).dropWhile fun x => !(matchKey u k x)).tail),
              updatedExpense upd e)
        ∧ (load_all rows).takeWhile (fun x => !(matchKey u k x))
              ++ e :: ((load_all rows).dropWhile fun x => !(matchKey u k x)).tail
            = load_all rows)
    ∧ (∀ e, find_expense rows u k = some e →
        ((∃ a ∈ upd.amount, a ≤ 0) ∨ (∃ d ∈ upd.date, (parseDate d.data).isNone = true)
          ∨ (∃ c ∈ upd.category, c ∉ CATEGORIES)) →
        ∃ msg, edit_expense rows u k upd = .error (.valueError msg)) := by
  refine ⟨?_, ?_, ?_⟩
  · intro h
    have h1 : (load_all rows).find? (matchKey u k) = none := h
    rw [edit_expense, editLoop_of_find?_none u k upd _ h1]
  · intro e hfind hv
    have h1 : (load_all rows).find? (matchKey u k) = some e := hfind
    constructor
    · rw [edit_expense, editLoop_of_find?_some u k upd _ e h1, applyUpdate_valid e hv]
    · exact find?_decomp _ _ h1
  · intro e hfind hbad
    obtain ⟨msg, happ⟩ := applyUpdate_invalid e hbad
    have h1 : (load_all rows).find? (matchKey u k) = some e := hfind
    rw [edit_expense, editLoop_of_find?_some u k upd _ e h1, happ]
    exact ⟨msg, rfl⟩

/-- Witness for C5 at a concrete one-row table: editing the amount and
description of (7, 1) while keeping date and category.  The found record's
amount is written in the parse's own normal form
(`digitsVal ['4','2'] + fracVal ['5','0']`, that is, 42.50). -/
theorem C5_witness :
    (find_expense [⟨"1", "7", "42.50", "2024-03-05", "Food", "lunch"⟩] "7" "1"
        = some ⟨"1", "7", (digitsVal ['4', '2'] : ℚ) + fracVal ['5', '0'],
            "2024-03-05", "Food", "lunch"⟩)
    ∧ validUpd ⟨some 7, none, none, some "snack"⟩
    ∧ (edit_expense [⟨"1", "7", "42.50", "2024-03-05", "Food", "lunch"⟩] "7" "1"
          ⟨some 7, none, none, some "snack"⟩
        = .ok (write_all ((load_all
              [⟨"1", "7", "42.50", "2024-03-05", "Food", "lunch"⟩]).takeWhile
                (fun x => !(matchKey "7" "1" x))
            ++ updatedExpense ⟨some 7, none, none, some "snack"⟩
                ⟨"1", "7", (digitsVal ['4', '2'] : ℚ) + fracVal ['5', '0'],
                  "2024-03-05", "Food", "lunch"⟩
              :: ((load_all
              [⟨"1", "7", "42.50", "2024-03-05", "Food", "lunch"⟩]).dropWhile
                fun x => !(matchKey "7" "1" x)).tail),
            updatedExpense ⟨some 7, none, none, some "snack"⟩
              ⟨"1", "7", (digitsVal ['4', '2'] : ℚ) + fracVal ['5', '0'],
                "2024-03-05", "Food", "lunch"⟩)
      ∧ (load_all [⟨"1", "7", "42.50", "2024-03-05", "Food", "lunch"⟩]).takeWhile
            (fun x => !(matchKey "7" "1" x))
          ++ ⟨"1", "7", (digitsVal ['4', '2'] : ℚ) + fracVal ['5', '0'],
                "2024-03-05", "Food", "lunch"⟩
            :: ((load_all
              [⟨"1", "7", "42.50", "2024-03-05", "Food", "lunch"⟩]).dropWhile
                fun x => !(matchKey "7" "1" x)).tail
          = load_all [⟨"1", "7", "42.50", "2024-03-05", "Food", "lunch"⟩]) := by
  have hf : find_expense [⟨"1", "7", "42.50", "2024-03-05", "Food", "lunch"⟩] "7" "1"
      = some ⟨"1", "7", (digitsVal ['4', '2'] : ℚ) + fracVal ['5', '0'],
          "2024-03-05", "Food", "lunch"⟩ := rfl
  have hv : validUpd ⟨some 7, none, none, some "snack"⟩ := by
    refine ⟨?_, ?_, ?_⟩
    · intro a ha
      cases ha
      norm_num
    · intro d hd
      cases hd
    · intro c hc
      cases hc
  exact ⟨hf, hv, (C5_edit_partial_update
    [⟨"1", "7", "42.50", "2024-03-05", "Food", "lunch"⟩] "7" "1"
    ⟨some 7, none, none, some "snack"⟩).2.1 _ hf hv⟩

/-! ## Lemmas for sequential id assignment (C3) -/

theorem le_foldl_max_init (l : List ℕ) (a : ℕ) : a ≤ l.foldl max a := by
  induction l generalizing a with
  | nil => simp
  | cons b l ih =>
    rw [List.foldl_cons]
    exact le_trans (le_max_left a b) (ih _)

theorem mem_le_foldl_max (l : List ℕ) (a : ℕ) : ∀ x ∈ l, x ≤ l.foldl max a := by
  induction l generalizing a with
  | nil =>
    intro x hx
    cases hx
  | cons b l ih =>
    intro x hx
    rcases List.mem_cons.mp hx with rfl | hx
    · rw [List.foldl_cons]
      exact le_trans (le_max_right a x) (le_foldl_max_init l _)
    · rw [List.foldl_cons]
      exact ih _ x hx

theorem foldl_max_mem (l : List ℕ) (a : ℕ) : l.foldl max a = a ∨ l.foldl max a ∈ l := by
  induction l generalizing a with
  | nil => exact Or.inl rfl
  | cons b l ih =>
    rw [List.foldl_cons]
    rcases ih (max a b) with h | h
    · rcases max_choice a b with hm | hm
      · exact Or.inl (h.trans hm)
      · refine Or.inr ?_
        rw [h, hm]
        exact List.mem_cons_self b l
    · exact Or.inr (List.mem_cons_of_mem b h)

theorem foldl_max_range' (k : ℕ) : (List.range' 1 k).foldl max 0 = k := by
  induction k with
  | zero => rfl
  | succ k ih =>
    rw [List.range'_concat, List.foldl_append, ih]
    simp
    omega

theorem parseIds_snoc {l : List Expense} {ids : List ℕ} {e : Expense} {n : ℕ}
    (h1 : parseIds l = some ids) (h2 : parseNatL e.expense_id.data = some n) :
    parseIds (l ++ [e]) = some (ids ++ [n]) := by
  induction l generalizing ids with
  | nil =>
    rw [parseIds] at h1
    cases h1
    rw [List.nil_append, List.nil_append, parseIds, h2, parseIds]
  | cons a l ih =>
    rw [parseIds] at h1
    rcases hpa : parseNatL a.expense_id.data with _ | m
    · rw [hpa] at h1
      cases h1
    · rw [hpa] at h1
      rcases hpl : parseIds l with _ | ids0
      · rw [hpl] at h1
        cases h1
      · rw [hpl] at h1
        cases h1
        rw [List.cons_append, parseIds, hpa, ih hpl]
        rfl

theorem parseIds_map_roundAmount (l : List Expense) :
    parseIds (l.map roundAmount) = parseIds l := by
  induction l with
  | nil => rfl
  | cons a l ih =>
    rw [List.map_cons, parseIds, parseIds, ih]
    rfl

theorem nextId_nil {rows : List Row} {uid : String}
    (h : parseIds (userExpenses rows uid) = some []) :
    next_expense_id_for_user rows uid = .ok 1 := by
  rw [next_expense_id_for_user, h]

theorem nextId_cons {rows : List Row} {uid : String} {n : ℕ} {ns : List ℕ}
    (h : parseIds (userExpenses rows uid) = some (n :: ns)) :
    next_expense_id_for_user rows uid = .ok ((n :: ns).foldl max 0 + 1) := by
  rw [next_expense_id_for_user, h]

theorem foldl_max_cons_range' (m : ℕ) :
    ∃ n ns, List.range' 1 (m + 1) = n :: ns ∧ (n :: ns).foldl max 0 = m + 1 := by
  refine ⟨1, List.range' (1 + 1) m, List.range'_succ 1 m 1, ?_⟩
  rw [← List.range'_succ 1 m 1]
  exact foldl_max_range' (m + 1)

theorem userExpenses_after_write (l : List Expense) (uid : String) :
    userExpenses (write_all l) uid
      = (l.filter fun e => e.user_id == uid).map roundAmount := by
  rw [userExpenses, load_all_write_all, List.filter_map]
  rfl

theorem add_step {rows : List Row} {uid : String} {k : ℕ}
    (hids : userIds rows uid = some (List.range' 1 k))
    (p : AddParams) (hp : validParams p) :
    ∃ rows1 exp,
      add_expense rows uid p.amount p.date p.category p.description = .ok (rows1, exp)
        ∧ userIds rows1 uid = some (List.range' 1 (k + 1)) := by
  obtain ⟨hpos, hdate, hcat⟩ := hp
  have hnext : next_expense_id_for_user rows uid = .ok (k + 1) := by
    have hp1 : parseIds (userExpenses rows uid) = some (List.range' 1 k) := hids
    cases k with
    | zero => exact nextId_nil hp1
    | succ m =>
      obtain ⟨n, ns, hcons, hfold⟩ := foldl_max_cons_range' m
      rw [hcons] at hp1
      rw [nextId_cons hp1, hfold]
  refine ⟨write_all (load_all rows
      ++ [⟨natStr (k + 1), uid, p.amount, p.date, p.category, p.description⟩]),
    ⟨natStr (k + 1), uid, p.amount, p.date, p.category, p.description⟩, ?_, ?_⟩
  · rw [add_expense, if_neg (not_not_intro hcat)]
    rw [if_neg (by rcases hpd : parseDate p.date.data with _ | v
                   · rw [hpd] at hdate
                     exact absurd hdate (by decide)
                   · simp)]
    rw [if_neg (not_le.mpr hpos), hnext]
  · rw [userIds, userExpenses_after_write, List.filter_append, parseIds_map_roundAmount]
    have hone : ([(⟨natStr (k + 1), uid, p.amount, p.date, p.category,
        p.description⟩ : Expense)].filter fun e => e.user_id == uid)
        = [⟨natStr (k + 1), uid, p.amount, p.date, p.category, p.description⟩] := by
      rw [List.filter_cons]
      simp
    rw [hone]
    have h2 : parseNatL (Expense.expense_id
        ⟨natStr (k + 1), uid, p.amount, p.date, p.category, p.description⟩).data
          = some (k + 1) := parseNatL_natToDigits (k + 1)
    have hsnoc : parseIds (List.filter (fun e => e.user_id == uid) (load_all rows)
        ++ [⟨natStr (k + 1), uid, p.amount, p.date, p.category, p.description⟩])
          = some (List.range' 1 k ++ [k + 1]) := parseIds_snoc hids h2
    rw [hsnoc, List.range'_concat]
    rw [show 1 + 1 * k = k + 1 by omega]

theorem addAll_ids {uid : String} (ps : List AddParams)
    (hps : ∀ p ∈ ps, validParams p) :
    ∀ rows k, userIds rows uid = some (List.range' 1 k) →
      ∃ rows1, addAll rows uid ps = .ok rows1
        ∧ userIds rows1 uid = some (List.range' 1 (k + ps.length)) := by
  induction ps with
  | nil =>
    intro rows k h
    exact ⟨rows, rfl, by simpa using h⟩
  | cons p ps ih =>
    intro rows k h
    obtain ⟨rows1, exp, hadd, hids1⟩ := add_step h p (hps p (List.mem_cons_self p ps))
    obtain ⟨rows2, hrec, hids2⟩ :=
      ih (fun q hq => hps q (List.mem_cons_of_mem p hq)) rows1 (k + 1) hids1
    refine ⟨rows2, ?_, ?_⟩
    · rw [addAll, hadd]
      exact hrec
    · rw [List.length_cons, show k + (ps.length + 1) = k + 1 + ps.length by omega]
      exact hids2

/-! ## Claim C3 -/

/-- C3: `next_expense_id_for_user` returns 1 when the user's id list is
empty and otherwise one more than the maximum existing id of that user (the
returned predecessor is an existing id and bounds all of them); and starting
from a table with no records for the user, N successful `add_expense` calls
(each with valid arguments) leave the next id at N + 1. -/
theorem C3_next_id (rows : List Row) (uid : String) :
    (∀ ids, userIds rows uid = some ids →
      (ids = [] → next_expense_id_for_user rows uid = .ok 1)
      ∧ (∀ n ns, ids = n :: ns →
          ∃ mx ∈ ids, (∀ i ∈ ids, i ≤ mx)
            ∧ next_expense_id_for_user rows uid = .ok (mx + 1)))
    ∧ (∀ ps : List AddParams, (∀ p ∈ ps, validParams p) →
        userIds rows uid = some [] →
        ∃ rows1, addAll rows uid ps = .ok rows1
          ∧ next_expense_id_for_user rows1 uid = .ok (ps.length + 1)) := by
  constructor
  · intro ids h
    have hp1 : parseIds (userExpenses rows uid) = some ids := h
    constructor
    · intro h0
      subst h0
      rw [next_expense_id_for_user, hp1]
    · intro n ns hcons
      subst hcons
      refine ⟨(n :: ns).foldl max 0, ?_, mem_le_foldl_max _ _, ?_⟩
      · rcases foldl_max_mem (n :: ns) 0 with h0 | hmem
        · have hn : n ≤ (n :: ns).foldl max 0 :=
            mem_le_foldl_max _ _ n (List.mem_cons_self n ns)
          rw [h0] at hn ⊢
          have : n = 0 := Nat.le_zero.mp hn
          rw [← this]
          exact List.mem_cons_self n ns
        · exact hmem
      · exact nextId_cons hp1
  · intro ps hps h0
    obtain ⟨rows1, hAll, hids⟩ := addAll_ids ps hps rows 0 (by simpa using h0)
    refine ⟨rows1, hAll, ?_⟩
    have hp1 : parseIds (userExpenses rows1 uid) = some (List.range' 1 ps.length) := by
      simpa using hids
    cases hL : ps.length with
    | zero =>
      rw [hL] at hp1
      exact nextId_nil hp1
    | succ m =>
      rw [hL] at hp1
      obtain ⟨n, ns, hcons, hfold⟩ := foldl_max_cons_range' m
      rw [hcons] at hp1
      rw [nextId_cons hp1, hfold]

/-- Witness for C3: the whole statement instantiated at an empty table and
user 7 (no hypotheses at the top level; the inner ones are discharged by
use on two concrete adds below). -/
theorem C3_witness :
    (∀ p ∈ [(⟨5, "2024-01-02", "Food", "a"⟩ : AddParams),
        ⟨3, "2024-01-03", "Other", "b"⟩], validParams p)
    ∧ userIds [] "7" = some []
    ∧ ∃ rows1, addAll [] "7" [(⟨5, "2024-01-02", "Food", "a"⟩ : AddParams),
        ⟨3, "2024-01-03", "Other", "b"⟩] = .ok rows1
      ∧ next_expense_id_for_user rows1 "7" = .ok (2 + 1) := by
  have hps : ∀ p ∈ [(⟨5, "2024-01-02", "Food", "a"⟩ : AddParams),
      ⟨3, "2024-01-03", "Other", "b"⟩], validParams p := by
    intro p hp
    rcases List.mem_cons.mp hp with rfl | hp
    · exact ⟨by norm_num, by decide, by decide⟩
    · rcases List.mem_cons.mp hp with rfl | hp
      · exact ⟨by norm_num, by decide, by decide⟩
      · cases hp
  have h0 : userIds [] "7" = some [] := rfl
  have h := (C3_next_id [] "7").2 _ hps h0
  exact ⟨hps, h0, by simpa using h⟩

/-! ## Claim C7 -/

theorem list_for_user_ok_sort {rows : List Row} {uid : String} {l : List Expense}
    (hok : list_for_user rows uid = .ok l) :
    l = List.insertionSort dateLe (userExpenses rows uid) := by
  simp only [list_for_user] at hok
  by_cases hcond : (userExpenses rows uid).all
      (fun e => (parseDate e.date.data).isSome) = true
  · rw [if_pos hcond] at hok
    cases hok
    rfl
  · rw [if_neg hcond] at hok
    cases hok

/-- C7: on a well-formed (store-written) table, `export_user_expenses`
writes exactly the rows `to_dict` produces from `list_for_user`'s output —
same order, same field layout as the primary store — and re-parsing that
file with the store's own loader yields a sequence equal to
`list_for_user`'s output. -/
theorem C7_export_roundtrip (rows : List Row) (uid : String) (l : List Expense)
    (hw : WellFormed rows) (hok : list_for_user rows uid = .ok l) :
    export_user_expenses rows uid = .ok (l.map to_dict)
      ∧ load_all (l.map to_dict) = l := by
  constructor
  · rw [export_user_expenses, hok]
    rfl
  · have hmap : l.map to_dict = write_all l := rfl
    rw [hmap, load_all_write_all]
    have hsub : ∀ e ∈ l, round2 e.amount = e.amount := by
      intro e he
      rw [list_for_user_ok_sort hok] at he
      have he1 : e ∈ userExpenses rows uid := by
        have hperm := List.perm_insertionSort dateLe (userExpenses rows uid)
        exact hperm.mem_iff.mp he
      have he2 : e ∈ load_all rows := (List.mem_filter.mp he1).1
      exact wellFormed_round2 hw e he2
    rw [List.map_congr_left fun e he => roundAmount_eq_self (hsub e he)]
    exact List.map_id' l

/-- Witness for C7 at a concrete one-row table of user 7. -/
theorem C7_witness :
    WellFormed [⟨"1", "7", "42.50", "2024-03-05", "Food", "lunch"⟩]
    ∧ list_for_user [⟨"1", "7", "42.50", "2024-03-05", "Food", "lunch"⟩] "7"
        = .ok [⟨"1", "7", (digitsVal ['4', '2'] : ℚ) + fracVal ['5', '0'],
            "2024-03-05", "Food", "lunch"⟩]
    ∧ export_user_expenses [⟨"1", "7", "42.50", "2024-03-05", "Food", "lunch"⟩] "7"
        = .ok ([(⟨"1", "7", (digitsVal ['4', '2'] : ℚ) + fracVal ['5', '0'],
            "2024-03-05", "Food", "lunch"⟩ : Expense)].map to_dict)
    ∧ load_all ([(⟨"1", "7", (digitsVal ['4', '2'] : ℚ) + fracVal ['5', '0'],
            "2024-03-05", "Food", "lunch"⟩ : Expense)].map to_dict)
        = [⟨"1", "7", (digitsVal ['4', '2'] : ℚ) + fracVal ['5', '0'],
            "2024-03-05", "Food", "lunch"⟩] := by
  have hq : ((digitsVal ['4', '2'] : ℚ) + fracVal ['5', '0']) = 85 / 2 := by
    rw [fracVal]
    rw [show digitsVal ['4', '2'] = 42 from rfl, show digitsVal ['5', '0'] = 50 from rfl]
    norm_num
  have hrhe : rhe (((digitsVal ['4', '2'] : ℚ) + fracVal ['5', '0']) * 100) = 4250 := by
    rw [hq]
    rw [show (85 / 2 : ℚ) * 100 = ((4250 : ℤ) : ℚ) by norm_num]
    exact rhe_intCast 4250
  have hfmt : format2 ((digitsVal ['4', '2'] : ℚ) + fracVal ['5', '0']) = "42.50" := by
    rw [format2, format2Chars, hrhe, if_neg (by rw [hq]; norm_num)]
    rw [show Int.natAbs 4250 = 4250 from rfl]
    rw [show (4250 : ℕ) / 100 = 42 from rfl, show (4250 : ℕ) / 10 % 10 = 5 from rfl,
      show (4250 : ℕ) % 10 = 0 from rfl]
    rw [show natToDigits 42 = ['4', '2'] by
      rw [natToDigits]
      norm_num
      rw [natToDigits]
      norm_num
      exact ⟨rfl, rfl⟩]
    rfl
  have hwf : WellFormed [⟨"1", "7", "42.50", "2024-03-05", "Food", "lunch"⟩] := by
    intro r hr
    rw [List.mem_singleton] at hr
    subst hr
    show (format2 ((digitsVal ['4', '2'] : ℚ) + fracVal ['5', '0'])
        == ("42.50" : String)) = true
    rw [hfmt]
    exact beq_self_eq_true _
  have hok : list_for_user [⟨"1", "7", "42.50", "2024-03-05", "Food", "lunch"⟩] "7"
      = .ok [⟨"1", "7", (digitsVal ['4', '2'] : ℚ) + fracVal ['5', '0'],
          "2024-03-05", "Food", "lunch"⟩] := rfl
  have h := C7_export_roundtrip _ "7" _ hwf hok
  exact ⟨hwf, hok, h.1, h.2⟩

/-! ## Claim C9 (corrected) -/

/-- C9 counterexample: a malformed row (its amount fails `float()`) in the
expense table is silently swallowed by `_load_all`, not surfaced: loading a
table containing it returns exactly the same value as loading the table
without it, with no error signal of any kind. -/
theorem C9_counterexample :
    parseExpense ⟨"2", "7", "abc", "2024-01-02", "Food", "x"⟩ = none
    ∧ load_all [⟨"1", "7", "42.50", "2024-03-05", "Food", "lunch"⟩,
          ⟨"2", "7", "abc", "2024-01-02", "Food", "x"⟩]
        = load_all [⟨"1", "7", "42.50", "2024-03-05", "Food", "lunch"⟩] :=
  ⟨rfl, rfl⟩

/-- C9 amended: store-level errors in the expense loader are not surfaced;
a malformed row encountered while loading is silently skipped
(`except Exception: continue`), leaving the result exactly as if the row
were absent.  (In the user store, by contrast, a malformed row raises and a
missing file is silently recovered by re-initialising an empty table.) -/
theorem C9_load_skips_malformed (rows1 rows2 : List Row) (r : Row)
    (h : parseExpense r = none) :
    load_all (rows1 ++ r :: rows2) = load_all (rows1 ++ rows2) := by
  rw [load_all, load_all, List.filterMap_append, List.filterMap_append,
    List.filterMap_cons, h]

/-- Witness for C9's amended statement at a concrete malformed row. -/
theorem C9_witness :
    parseExpense ⟨"2", "7", "abc", "2024-01-02", "Food", "x"⟩ = none
    ∧ load_all ([⟨"1", "7", "42.50", "2024-03-05", "Food", "lunch"⟩]
          ++ ⟨"2", "7", "abc", "2024-01-02", "Food", "x"⟩
            :: [⟨"3", "8", "5.00", "2024-01-05", "Other", "y"⟩])
        = load_all ([⟨"1", "7", "42.50", "2024-03-05", "Food", "lunch"⟩]
          ++ [⟨"3", "8", "5.00", "2024-01-05", "Other", "y"⟩]) :=
  ⟨rfl, C9_load_skips_malformed
    [⟨"1", "7", "42.50", "2024-03-05", "Food", "lunch"⟩]
    [⟨"3", "8", "5.00", "2024-01-05", "Other", "y"⟩]
    ⟨"2", "7", "abc", "2024-01-02", "Food", "x"⟩ rfl⟩

end ExpenseTracker
